import Mathlib

/-
Verification of the transition engine of unstately (src/include/unstately/unstately.h),
a small C++ state-machine library, against its specification.

The embedding below models the library under its dynamic ("unique") allocation
policy for the engine itself (UniqueStateAllocator: every make_state_ptr call
allocates a fresh, exclusively owned state object), and models the static
allocation policy (StaticStateAllocator: one lazily created static instance per
concrete state type, overwritten by assignment) separately.

Application-defined behaviour (the pure virtual methods entry, exit and
EventHandlerUnit::handle of a concrete State subclass) is a parameter of the
model, a record of functions.  Machine steps also emit an explicit trace of
hook invocations, so that ordering properties (exit before entry, entry exactly
once, ...) are statements about the emitted trace.
-/

namespace Unstately

variable {σ C E : Type}

/-- An object of the C++ class State (unstately.h, lines 82-167): a concrete
state instance.  `id` models the object's identity (allocation order: the
model threads a fresh-id counter through every make_state_ptr call), `data`
the fields of the application-defined subclass, and `pending` the private
member next_state_ (the pending-transition slot), which holds an owned pointer
to another State object and is empty ({}) on fresh construction. -/
inductive Inst (σ : Type) : Type where
  | mk : Nat → σ → Option (Inst σ) → Inst σ

/-- The object identity (allocation number) of a state instance. -/
def Inst.id : Inst σ → Nat
  | .mk i _ _ => i

/-- The application-defined fields of a state instance. -/
def Inst.data : Inst σ → σ
  | .mk _ d _ => d

/-- The next_state_ member of a state instance: the pending-transition slot. -/
def Inst.pending : Inst σ → Option (Inst σ)
  | .mk _ _ p => p

/-- The virtual interface of a concrete application-defined state class.
Each method receives the state's own fields and the machine context and
returns their updated values together with the list of arguments of the
request_transition calls the method body made, in call order (each such call
in the C++ source does next_state_ = Allocator::make_state_ptr<T>(...),
overwriting the slot; the model replays the calls in applyReqs).  entry and
exit (unstately.h, lines 116-122) may also call request_transition: the
protected method is available to every method of the subclass. -/
structure StateClass (σ C E : Type) where
  entry : σ → C → σ × C × List σ
  exit : σ → C → σ × C × List σ
  handle : σ → C → E → σ × C × List σ

/-- One make_state_ptr call of UniqueStateAllocator (unstately.h, lines
300-303): allocates a fresh state object (empty pending slot) and advances
the fresh-id counter. -/
def UniqueStateAllocator.make_state_ptr (n : Nat) (d : σ) : Inst σ × Nat :=
  (Inst.mk n d none, n + 1)

/-- Replays a sequence of request_transition calls (unstately.h, lines
147-163) against the pending-transition slot: each call allocates via
make_state_ptr and overwrites the slot (next_state_ = ...), so the last call
wins.  Returns the final slot content and fresh-id counter. -/
def applyReqs (slot : Option (Inst σ)) (reqs : List σ) (n : Nat) :
    Option (Inst σ) × Nat :=
  match reqs with
  | [] => (slot, n)
  | r :: rest =>
    let p := UniqueStateAllocator.make_state_ptr n r
    applyReqs (some p.1) rest p.2

/-- A recorded hook invocation: which instance (by object identity), its
fields and the context value at the moment of the call, and for handle also
the event. -/
inductive Hook (σ C E : Type) where
  | entryCall (i : Nat) (d : σ) (c : C)
  | exitCall (i : Nat) (d : σ) (c : C)
  | handleCall (i : Nat) (d : σ) (c : C) (e : E)

/-- The instance a hook invocation was performed on. -/
def Hook.hid : Hook σ C E → Nat
  | .entryCall i _ _ => i
  | .exitCall i _ _ => i
  | .handleCall i _ _ _ => i

/-- Whether a hook invocation is an entry call. -/
def Hook.isEntry : Hook σ C E → Bool
  | .entryCall _ _ _ => true
  | _ => false

/-- Whether a hook invocation is an exit call. -/
def Hook.isExit : Hook σ C E → Bool
  | .exitCall _ _ _ => true
  | _ => false

/-- Whether a hook invocation is a handle call. -/
def Hook.isHandle : Hook σ C E → Bool
  | .handleCall _ _ _ _ => true
  | _ => false

/-- Result of State::react (unstately.h, lines 132-137): the state object
after the handle call with its slot cleared (std::exchange(next_state_,
Ptr{})), the updated context, the exchanged-out slot content, the advanced
fresh-id counter, and the emitted trace. -/
structure ReactResult (σ C E : Type) where
  self : Inst σ
  ctx : C
  next : Option (Inst σ)
  fresh : Nat
  trace : List (Hook σ C E)

/-- State::react: invokes the appropriate handle (which may call
request_transition any number of times), then exchanges the pending slot with
an empty one and returns the old content. -/
def react (cls : StateClass σ C E) (s : Inst σ) (c : C) (e : E) (n : Nat) :
    ReactResult σ C E :=
  let h := cls.handle s.data c e
  let ar := applyReqs s.pending h.2.2 n
  ⟨Inst.mk s.id h.1 none, h.2.1, ar.1, ar.2, [Hook.handleCall s.id s.data c e]⟩

/-- The class StateMachine (unstately.h, lines 174-243) instantiated with the
unique allocation policy: the context (exclusively owned), the current state
(state_; none models a null StatePtr, which arises only from a move), and the
model's fresh-id counter. -/
structure StateMachine (σ C : Type) where
  context_ : C
  state_ : Option (Inst σ)
  fresh : Nat

/-- A machine operation's result: the machine afterwards and the trace of
hook invocations the operation performed, in order. -/
structure StepResult (σ C E : Type) where
  machine : StateMachine σ C
  trace : List (Hook σ C E)

/-- The body of the if branch of StateMachine::dispatch (unstately.h, lines
233-237), run when react returned a non-empty handle ns: invoke exit on the
(post-react) current state, drop that state (its slot, possibly rewritten by
request_transition calls made during exit, dies with it; the ids those calls
consumed stay consumed), install ns, and invoke entry on it (entry's
request_transition calls write ns's slot). -/
def commit (cls : StateClass σ C E) (oldId : Nat) (r : ReactResult σ C E)
    (ns : Inst σ) : StepResult σ C E :=
  let ex := cls.exit r.self.data r.ctx
  let exSlot := applyReqs none ex.2.2 r.fresh
  let en := cls.entry ns.data ex.2.1
  let enSlot := applyReqs ns.pending en.2.2 exSlot.2
  ⟨⟨en.2.1, some (Inst.mk ns.id en.1 enSlot.1), enSlot.2⟩,
   r.trace ++ [Hook.exitCall oldId r.self.data r.ctx,
               Hook.entryCall ns.id ns.data ex.2.1]⟩

/-- StateMachine::dispatch for a machine whose current state is s: let s
react to the event; if no next state was exchanged out, keep the (possibly
self-mutated) current state; otherwise commit the transition. -/
def dispatchCur (cls : StateClass σ C E) (c : C) (n : Nat) (s : Inst σ)
    (e : E) : StepResult σ C E :=
  match (react cls s c e n).next with
  | none =>
    ⟨⟨(react cls s c e n).ctx, some (react cls s c e n).self,
      (react cls s c e n).fresh⟩, (react cls s c e n).trace⟩
  | some ns => commit cls s.id (react cls s c e n) ns

/-- StateMachine::dispatch (unstately.h, lines 231-238).  A null current
state (moved-from machine) is undefined behaviour in the source; the model
makes it a no-op. -/
def dispatch (cls : StateClass σ C E) (m : StateMachine σ C) (e : E) :
    StepResult σ C E :=
  match m.state_ with
  | none => ⟨m, []⟩
  | some s => dispatchCur cls m.context_ m.fresh s e

/-- The StateMachine constructor (unstately.h, lines 203-208): stores the
context, allocates the initial state via make_state_ptr (the first object,
id 0), then synchronously invokes entry on it (whose request_transition
calls write the initial state's slot). -/
def StateMachine.construct (cls : StateClass σ C E) (c : C) (d0 : σ) :
    StepResult σ C E :=
  let p := UniqueStateAllocator.make_state_ptr 0 d0
  let en := cls.entry p.1.data c
  let enSlot := applyReqs p.1.pending en.2.2 p.2
  ⟨⟨en.2.1, some (Inst.mk p.1.id en.1 enSlot.1), enSlot.2⟩,
   [Hook.entryCall p.1.id p.1.data c]⟩

/-- The StateMachine destructor (unstately.h, lines 210-215): if state_ is
non-null, invoke exit on it (a request_transition made during this exit is
dropped with the dying object).  Under the unique policy, state_ is null
exactly when the machine was moved from. -/
def StateMachine.destruct (cls : StateClass σ C E) (m : StateMachine σ C) :
    StepResult σ C E :=
  match m.state_ with
  | none => ⟨m, []⟩
  | some s =>
    let ex := cls.exit s.data m.context_
    let exSlot := applyReqs none ex.2.2 m.fresh
    ⟨⟨ex.2.1, none, exSlot.2⟩, [Hook.exitCall s.id s.data m.context_]⟩

/-- The defaulted move constructor StateMachine(StateMachine&&) under the
unique policy: memberwise move; moving the std::unique_ptr state_ nulls the
source.  Returns (move target, moved-from source). -/
def StateMachine.moveConstruct (m : StateMachine σ C) :
    StateMachine σ C × StateMachine σ C :=
  (⟨m.context_, m.state_, m.fresh⟩, ⟨m.context_, none, m.fresh⟩)

/-- Dispatches a list of events in order, collecting machines and traces. -/
def runEvents (cls : StateClass σ C E) (m : StateMachine σ C) :
    List E → StateMachine σ C × List (Hook σ C E)
  | [] => (m, [])
  | e :: es =>
    let st := dispatch cls m e
    let rest := runEvents cls st.machine es
    (rest.1, st.trace ++ rest.2)

/-- A complete engine execution: construction with a context and an initial
state, a sequence of dispatch calls, destruction.  Returns the full trace of
hook invocations. -/
def run (cls : StateClass σ C E) (c0 : C) (d0 : σ) (es : List E) :
    List (Hook σ C E) :=
  (StateMachine.construct cls c0 d0).trace ++
    (runEvents cls (StateMachine.construct cls c0 d0).machine es).2 ++
    (StateMachine.destruct cls
      (runEvents cls (StateMachine.construct cls c0 d0).machine es).1).trace

/-- The states of the turnstile example (src/examples/turnstile/main.cpp,
classes Locked and Unlocked). -/
inductive TState where
  | Locked
  | Unlocked
deriving DecidableEq

/-- The events of the turnstile example. -/
inductive TEvent where
  | CoinInserted
  | ArmPushed
deriving DecidableEq

/-- The observable actions the turnstile context offers (lock_arm,
unlock_arm, beep); the model's context accumulates them in a list. -/
inductive TOut where
  | armLocked
  | armUnlocked
  | beep
deriving DecidableEq

/-- The turnstile state classes (src/examples/turnstile/main.cpp, lines
60-104): Locked.entry locks the arm, Locked.handle(CoinInserted) requests a
transition to Unlocked, Locked.handle(ArmPushed) beeps; Unlocked.entry
unlocks the arm, Unlocked.handle(ArmPushed) requests a transition to Locked,
Unlocked.handle(CoinInserted) does nothing; both exits are no-ops. -/
def turnstileClass : StateClass TState (List TOut) TEvent where
  entry := fun d c =>
    match d with
    | TState.Locked => (d, c ++ [TOut.armLocked], [])
    | TState.Unlocked => (d, c ++ [TOut.armUnlocked], [])
  exit := fun d c => (d, c, [])
  handle := fun d c e =>
    match d, e with
    | TState.Locked, TEvent.CoinInserted => (d, c, [TState.Unlocked])
    | TState.Locked, TEvent.ArmPushed => (d, c ++ [TOut.beep], [])
    | TState.Unlocked, TEvent.CoinInserted => (d, c, [])
    | TState.Unlocked, TEvent.ArmPushed => (d, c, [TState.Locked])

/-- The turnstile machine fresh after construction in Locked. -/
def tm0 : StateMachine TState (List TOut) :=
  (StateMachine.construct turnstileClass [] TState.Locked).machine

/-- The turnstile machine after one CoinInserted (current state Unlocked). -/
def tm1 : StateMachine TState (List TOut) :=
  (dispatch turnstileClass tm0 TEvent.CoinInserted).machine

/-- A two-state class whose first state's entry hook requests a transition
(to data true) while no handle ever requests one: used to observe what the
engine does with a request made during entry. -/
def entryReqClass : StateClass Bool Unit Unit where
  entry := fun d c => if d then (d, c, []) else (d, c, [true])
  exit := fun d c => (d, c, [])
  handle := fun d c _ => (d, c, [])

/-- A state class on Nat fields whose handle requests a transition twice,
first to a state with fields 1 (X) and then to one with fields 2 (Y). -/
def doubleReqClass : StateClass Nat Unit Unit where
  entry := fun d c => (d, c, [])
  exit := fun d c => (d, c, [])
  handle := fun d c _ => (d, c, [1, 2])

/-- The doubleReqClass machine fresh after construction with fields 0. -/
def dm0 : StateMachine Nat Unit :=
  (StateMachine.construct doubleReqClass () 0).machine

/-- The entryReqClass machine fresh after construction with fields false:
its entry hook requested a transition, so the initial state's pending slot
already holds the freshly allocated true-state (id 1). -/
def em0 : StateMachine Bool Unit :=
  (StateMachine.construct entryReqClass () false).machine

/-- A state object as stored by StaticStateAllocator: the fields of the
concrete type and its next_state_ member, which under the static policy is a
raw pointer, modelled as an optional type key. -/
structure SVal (κ σ : Type) where
  data : σ
  pending : Option κ

/-- Construction and assignment events performed by the static allocator on
the per-type static storage, recorded so that construction counts can be
stated. -/
inductive CtorEvent (κ : Type) where
  | defaultConstruct (k : κ)
  | moveAssign (k : κ)

namespace StaticStateAllocator

/-- Pointwise update of the static storage (the write `instance = ...` seen
through the per-type map). -/
def updateStore [DecidableEq κ] (store : κ → Option (SVal κ σ)) (k : κ)
    (v : SVal κ σ) : κ → Option (SVal κ σ) :=
  fun q => if q = k then some v else store q

/-- StaticStateAllocator::get_state_instance (unstately.h, lines 274-278):
the lazily initialized per-type static instance.  The store maps each
concrete state type (key) to its static instance once constructed; on first
use the instance is default-constructed (static T instance{}; fields the
type's default, empty pending slot) and a defaultConstruct event recorded. -/
def get_state_instance [DecidableEq κ] (dflt : κ → σ)
    (store : κ → Option (SVal κ σ)) (k : κ) :
    (κ → Option (SVal κ σ)) × SVal κ σ × List (CtorEvent κ) :=
  match store k with
  | some v => (store, v, [])
  | none =>
    (updateStore store k ⟨dflt k, none⟩, ⟨dflt k, none⟩,
     [CtorEvent.defaultConstruct k])

/-- StaticStateAllocator::make_state_ptr (unstately.h, lines 266-271):
obtains the per-type static instance, move-assigns a freshly constructed
T{args...} (fields d, empty pending slot) into it, and returns its address —
the type key, since there is exactly one instance per type. -/
def make_state_ptr [DecidableEq κ] (dflt : κ → σ)
    (store : κ → Option (SVal κ σ)) (k : κ) (d : σ) :
    (κ → Option (SVal κ σ)) × κ × List (CtorEvent κ) :=
  let g := get_state_instance dflt store k
  (updateStore g.1 k ⟨d, none⟩, k, g.2.2 ++ [CtorEvent.moveAssign k])

end StaticStateAllocator

/-- The class StateMachine instantiated with the static allocation policy:
StatePtr is then StaticStateAllocator::Ptr = a raw pointer T* (unstately.h,
lines 256-257), modelled as an optional type key into the static storage
(none models nullptr). -/
structure SMRaw (κ C : Type) where
  context_ : C
  state_ : Option κ

/-- A hook invocation on a statically allocated state, identified by its
type key. -/
inductive RawHook (κ : Type) where
  | exitCall (k : κ)

/-- The defaulted move constructor StateMachine(StateMachine&&) under the
static policy: memberwise move, and moving a raw pointer member merely
copies it — the source's state_ is NOT nulled.  Returns (move target,
moved-from source). -/
def SMRaw.moveConstruct (m : SMRaw κ C) : SMRaw κ C × SMRaw κ C :=
  (⟨m.context_, m.state_⟩, ⟨m.context_, m.state_⟩)

/-- The StateMachine destructor (unstately.h, lines 210-215) under the
static policy: if the raw pointer state_ is non-null, invoke exit on the
pointed-to static instance with the context.  Returns the updated static
storage, the context after exit, and the trace of hook invocations. -/
def SMRaw.destruct [DecidableEq κ] (exitFn : σ → C → σ × C)
    (store : κ → Option (SVal κ σ)) (m : SMRaw κ C) :
    (κ → Option (SVal κ σ)) × C × List (RawHook κ) :=
  match m.state_ with
  | none => (store, m.context_, [])
  | some k =>
    match store k with
    | none => (store, m.context_, [])
    | some v =>
      let r := exitFn v.data m.context_
      (StaticStateAllocator.updateStore store k ⟨r.1, v.pending⟩, r.2,
       [RawHook.exitCall k])

/-- A one-key static storage holding a current (entered) state instance of
type key 0 with fields true, for exercising the static-policy destructor. -/
def rawStore0 : Nat → Option (SVal Nat Bool) :=
  fun k => if k = 0 then some ⟨true, none⟩ else none

/-- An exit implementation that leaves fields and context unchanged. -/
def rawExit : Bool → Unit → Bool × Unit := fun d c => (d, c)

/-- A static-policy machine whose current state is the instance of type key
0. -/
def rawA : SMRaw Nat Unit := ⟨(), some 0⟩

/-- The subtrace of hook invocations performed on the instance with id i. -/
def filt (i : Nat) : List (Hook σ C E) → List (Hook σ C E)
  | [] => []
  | h :: t => if h.hid = i then h :: filt i t else filt i t

/-- All hooks of the list are handle calls. -/
def handlesOnly (l : List (Hook σ C E)) : Bool := l.all Hook.isHandle

/-- An open lifecycle: one entry call followed only by handle calls (the
instance is still current, its exit not yet invoked). -/
def openTr : List (Hook σ C E) → Bool
  | [] => false
  | h :: t => h.isEntry && handlesOnly t

/-- The part of a closed lifecycle after its entry call: handle calls
terminated by exactly one exit call. -/
def closedTail : List (Hook σ C E) → Bool
  | [] => false
  | [h] => h.isExit
  | h :: t => h.isHandle && closedTail t

/-- A closed lifecycle: nothing at all (the instance never became current),
or one entry call, handle calls, and one final exit call. -/
def closedTr : List (Hook σ C E) → Bool
  | [] => true
  | h :: t => h.isEntry && closedTail t

/-- The per-instance lifecycle discipline: the instance's hook subtrace is
empty, or begins with its single entry call, continues with handle calls
only, and is terminated by at most one exit call.  In particular entry is
invoked exactly once, before any handle and before any exit on the
instance, and neither entry nor exit is ever invoked twice. -/
def instOK (l : List (Hook σ C E)) : Bool := closedTr l || openTr l

/-- The reachability invariant tying a machine to the trace accumulated so
far: every recorded hook is on an already-allocated instance; the current
state's subtrace is an open lifecycle (entered, not yet exited) and any
request pending in its slot is a freshly allocated instance (empty own slot,
distinct from the current instance, no hooks yet); every other instance's
subtrace is a closed lifecycle. -/
structure EngineInv (m : StateMachine σ C) (tr : List (Hook σ C E)) : Prop where
  bound : ∀ h ∈ tr, Hook.hid h < m.fresh
  cur : ∀ s, m.state_ = some s →
    s.id < m.fresh ∧ openTr (filt s.id tr) = true ∧
    ∀ p, s.pending = some p →
      p.id < m.fresh ∧ p.id ≠ s.id ∧ p.pending = none ∧ filt p.id tr = []
  closed : ∀ j, (∀ s, m.state_ = some s → j ≠ s.id) →
    closedTr (filt j tr) = true

/-- Unfolding of react into its components. -/
theorem react_eq (cls : StateClass σ C E) (s : Inst σ) (c : C) (e : E)
    (n : Nat) :
    react cls s c e n =
      ⟨Inst.mk s.id (cls.handle s.data c e).1 none,
       (cls.handle s.data c e).2.1,
       (applyReqs s.pending (cls.handle s.data c e).2.2 n).1,
       (applyReqs s.pending (cls.handle s.data c e).2.2 n).2,
       [Hook.handleCall s.id s.data c e]⟩ := rfl

/-- Unfolding of commit into its components. -/
theorem commit_eq (cls : StateClass σ C E) (oldId : Nat)
    (r : ReactResult σ C E) (ns : Inst σ) :
    commit cls oldId r ns =
      ⟨⟨(cls.entry ns.data (cls.exit r.self.data r.ctx).2.1).2.1,
        some (Inst.mk ns.id
          (cls.entry ns.data (cls.exit r.self.data r.ctx).2.1).1
          (applyReqs ns.pending
            (cls.entry ns.data (cls.exit r.self.data r.ctx).2.1).2.2
            (applyReqs none (cls.exit r.self.data r.ctx).2.2 r.fresh).2).1),
        (applyReqs ns.pending
          (cls.entry ns.data (cls.exit r.self.data r.ctx).2.1).2.2
          (applyReqs none (cls.exit r.self.data r.ctx).2.2 r.fresh).2).2⟩,
       r.trace ++ [Hook.exitCall oldId r.self.data r.ctx,
                   Hook.entryCall ns.id ns.data
                     (cls.exit r.self.data r.ctx).2.1]⟩ := rfl

/-- Dispatch on a moved-from (null state) machine does nothing. -/
theorem dispatch_state_none (cls : StateClass σ C E) (m : StateMachine σ C)
    (e : E) (hs : m.state_ = none) : dispatch cls m e = ⟨m, []⟩ := by
  unfold dispatch
  rw [hs]

/-- Dispatch on a machine with a current state delegates to that state. -/
theorem dispatch_state_some (cls : StateClass σ C E) (m : StateMachine σ C)
    (e : E) (s : Inst σ) (hs : m.state_ = some s) :
    dispatch cls m e = dispatchCur cls m.context_ m.fresh s e := by
  unfold dispatch
  rw [hs]

/-- Characterization of dispatchCur when react exchanges out no next state. -/
theorem dispatchCur_next_none (cls : StateClass σ C E) (c : C) (n : Nat)
    (s : Inst σ) (e : E) (hr : (react cls s c e n).next = none) :
    dispatchCur cls c n s e =
      ⟨⟨(react cls s c e n).ctx, some (react cls s c e n).self,
        (react cls s c e n).fresh⟩, (react cls s c e n).trace⟩ := by
  unfold dispatchCur
  rw [hr]

/-- Characterization of dispatchCur when react exchanges out a next state. -/
theorem dispatchCur_next_some (cls : StateClass σ C E) (c : C) (n : Nat)
    (s : Inst σ) (e : E) (ns : Inst σ)
    (hr : (react cls s c e n).next = some ns) :
    dispatchCur cls c n s e = commit cls s.id (react cls s c e n) ns := by
  unfold dispatchCur
  rw [hr]

/-- Unfolding of the constructor into its components. -/
theorem construct_eq (cls : StateClass σ C E) (c : C) (d0 : σ) :
    StateMachine.construct cls c d0 =
      ⟨⟨(cls.entry d0 c).2.1,
        some (Inst.mk 0 (cls.entry d0 c).1
          (applyReqs none (cls.entry d0 c).2.2 1).1),
        (applyReqs none (cls.entry d0 c).2.2 1).2⟩,
       [Hook.entryCall 0 d0 c]⟩ := rfl

/-- Replaying request_transition calls consumes one fresh id per call. -/
theorem applyReqs_snd (reqs : List σ) : ∀ (slot : Option (Inst σ)) (n : Nat),
    (applyReqs slot reqs n).2 = n + reqs.length := by
  induction reqs with
  | nil => intro slot n; simp [applyReqs]
  | cons r rest ih =>
    intro slot n
    rw [applyReqs]
    rw [ih]
    simp [UniqueStateAllocator.make_state_ptr]
    omega

/-- If replaying the request_transition calls leaves an empty slot, the slot
was empty before and no call was made. -/
theorem applyReqs_fst_none (reqs : List σ) :
    ∀ (slot : Option (Inst σ)) (n : Nat),
    (applyReqs slot reqs n).1 = none → slot = none ∧ reqs = [] := by
  induction reqs with
  | nil => intro slot n h; exact ⟨h, rfl⟩
  | cons r rest ih =>
    intro slot n h
    rw [applyReqs] at h
    obtain ⟨hc, -⟩ := ih _ _ h
    exact absurd hc (by simp [UniqueStateAllocator.make_state_ptr])

/-- A non-empty slot after replaying the request_transition calls is either
the untouched original slot (no call was made) or a freshly allocated
instance with an empty slot of its own and an id in the consumed range. -/
theorem applyReqs_fst_some (reqs : List σ) :
    ∀ (slot : Option (Inst σ)) (n : Nat) (p : Inst σ),
    (applyReqs slot reqs n).1 = some p →
    (reqs = [] ∧ slot = some p) ∨
      (p.pending = none ∧ n ≤ p.id ∧ p.id < (applyReqs slot reqs n).2) := by
  induction reqs with
  | nil => intro slot n p h; exact Or.inl ⟨rfl, h⟩
  | cons r rest ih =>
    intro slot n p h
    rw [applyReqs] at h
    rcases ih _ _ _ h with ⟨hrest, hp⟩ | ⟨hpend, hle, hlt⟩
    · right
      obtain rfl : Inst.mk n r none = p := by
        simpa [UniqueStateAllocator.make_state_ptr] using hp
      refine ⟨rfl, Nat.le_refl _, ?_⟩
      rw [applyReqs, applyReqs_snd]
      simp [UniqueStateAllocator.make_state_ptr, Inst.id]
      omega
    · right
      refine ⟨hpend, ?_, ?_⟩
      · simp [UniqueStateAllocator.make_state_ptr] at hle
        omega
      · rw [applyReqs]
        exact hlt

/-- Replaying request_transition calls ending with a request for y leaves y
(freshly allocated, empty slot) in the pending slot: the last call wins. -/
theorem applyReqs_concat (xs : List σ) (y : σ) :
    ∀ (slot : Option (Inst σ)) (n : Nat),
    applyReqs slot (xs ++ [y]) n =
      (some (Inst.mk (n + xs.length) y none), n + xs.length + 1) := by
  induction xs with
  | nil => intro slot n; simp [applyReqs, UniqueStateAllocator.make_state_ptr]
  | cons x xs ih =>
    intro slot n
    rw [List.cons_append, applyReqs, ih]
    simp [UniqueStateAllocator.make_state_ptr]
    omega

/-- C1: when the current state's handle requests a transition (react
exchanges out a non-empty next-state handle ns), dispatch performs exactly,
and in this order: the handle call on the old state, the exit call on the
old state, and the entry call on the newly installed state ns — the old
state's exit is recorded (hence completes) before the new state's entry —
and the machine's current-state slot afterwards holds the returned handle
(the instance with ns's identity). -/
theorem dispatch_transition_order (cls : StateClass σ C E)
    (m : StateMachine σ C) (e : E) (s ns : Inst σ) (hs : m.state_ = some s)
    (hr : (react cls s m.context_ e m.fresh).next = some ns) :
    (dispatch cls m e).trace =
      [Hook.handleCall s.id s.data m.context_ e,
       Hook.exitCall s.id (react cls s m.context_ e m.fresh).self.data
         (react cls s m.context_ e m.fresh).ctx,
       Hook.entryCall ns.id ns.data
         (cls.exit (react cls s m.context_ e m.fresh).self.data
           (react cls s m.context_ e m.fresh).ctx).2.1] ∧
    ∃ d sl, (dispatch cls m e).machine.state_ = some (Inst.mk ns.id d sl) := by
  rw [dispatch_state_some cls m e s hs, dispatchCur_next_some cls _ _ s e ns hr,
    commit_eq]
  exact ⟨rfl, _, _, rfl⟩

/-- Witness for C1 at the turnstile: from Locked, CoinInserted requests
Unlocked; the dispatch trace is handle, then exit(Locked), then
entry(Unlocked), and Unlocked (instance 1) is installed. -/
theorem dispatch_transition_order_witness :
    tm0.state_ = some (Inst.mk 0 TState.Locked none) ∧
    (react turnstileClass (Inst.mk 0 TState.Locked none) tm0.context_
      TEvent.CoinInserted tm0.fresh).next =
      some (Inst.mk 1 TState.Unlocked none) ∧
    ((dispatch turnstileClass tm0 TEvent.CoinInserted).trace =
      [Hook.handleCall 0 TState.Locked [TOut.armLocked] TEvent.CoinInserted,
       Hook.exitCall 0 TState.Locked [TOut.armLocked],
       Hook.entryCall 1 TState.Unlocked [TOut.armLocked]] ∧
     ∃ d sl, (dispatch turnstileClass tm0 TEvent.CoinInserted).machine.state_ =
       some (Inst.mk 1 d sl)) :=
  ⟨rfl, rfl, by
    have h := dispatch_transition_order turnstileClass tm0 TEvent.CoinInserted
      (Inst.mk 0 TState.Locked none) (Inst.mk 1 TState.Unlocked none) rfl rfl
    exact h⟩

/-- C2: when the current state's handle makes no request_transition call and
no earlier pending request sits in the slot, the dispatch invokes neither
exit nor entry: its whole trace is the one handle call, the machine keeps
the same current-state instance (same identity, fields as the handler left
them, slot still empty), the context is exactly what the handler made of it,
and the allocation counter is untouched. -/
theorem dispatch_no_request_frame (cls : StateClass σ C E)
    (m : StateMachine σ C) (e : E) (s : Inst σ) (hs : m.state_ = some s)
    (hp : s.pending = none) (d1 : σ) (c1 : C)
    (hh : cls.handle s.data m.context_ e = (d1, c1, [])) :
    dispatch cls m e =
      ⟨⟨c1, some (Inst.mk s.id d1 none), m.fresh⟩,
       [Hook.handleCall s.id s.data m.context_ e]⟩ := by
  have hr : (react cls s m.context_ e m.fresh).next = none := by
    rw [react_eq]
    simp [hh, hp, applyReqs]
  rw [dispatch_state_some cls m e s hs, dispatchCur_next_none cls _ _ s e hr,
    react_eq]
  simp [hh, hp, applyReqs]

/-- Witness for C2 at the turnstile: ArmPushed while Locked only beeps; the
machine keeps instance 0 (Locked) and no exit or entry is invoked. -/
theorem dispatch_no_request_frame_witness :
    tm0.state_ = some (Inst.mk 0 TState.Locked none) ∧
    (Inst.mk 0 TState.Locked none).pending = (none : Option (Inst TState)) ∧
    turnstileClass.handle TState.Locked tm0.context_ TEvent.ArmPushed =
      (TState.Locked, [TOut.armLocked, TOut.beep], []) ∧
    dispatch turnstileClass tm0 TEvent.ArmPushed =
      ⟨⟨[TOut.armLocked, TOut.beep], some (Inst.mk 0 TState.Locked none), 1⟩,
       [Hook.handleCall 0 TState.Locked [TOut.armLocked] TEvent.ArmPushed]⟩ :=
  ⟨rfl, rfl, rfl,
   dispatch_no_request_frame turnstileClass tm0 TEvent.ArmPushed
     (Inst.mk 0 TState.Locked none) rfl rfl TState.Locked
     [TOut.armLocked, TOut.beep] rfl⟩

/-- C3: when one handle invocation calls request_transition more than once
(requests x :: xs, then a final y), each later call overwrites the earlier
pending request — the slot, an Option, holds at most one request — so react
exchanges out the state built from y (never one built from x), the engine
installs that instance, and the dispatch ends with the entry call on it,
with y as its fields. -/
theorem dispatch_last_request_wins (cls : StateClass σ C E)
    (m : StateMachine σ C) (e : E) (s : Inst σ) (hs : m.state_ = some s)
    (d1 : σ) (c1 : C) (x y : σ) (xs : List σ)
    (hh : cls.handle s.data m.context_ e = (d1, c1, (x :: xs) ++ [y])) :
    (react cls s m.context_ e m.fresh).next =
      some (Inst.mk (m.fresh + (x :: xs).length) y none) ∧
    ∃ d sl,
      (dispatch cls m e).machine.state_ =
        some (Inst.mk (m.fresh + (x :: xs).length) d sl) ∧
      (dispatch cls m e).trace.getLast? =
        some (Hook.entryCall (m.fresh + (x :: xs).length) y
          (cls.exit d1 c1).2.1) := by
  have hr : (react cls s m.context_ e m.fresh).next =
      some (Inst.mk (m.fresh + (x :: xs).length) y none) := by
    rw [react_eq]
    show (applyReqs s.pending (cls.handle s.data m.context_ e).2.2 m.fresh).1 =
      some (Inst.mk (m.fresh + (x :: xs).length) y none)
    rw [hh]
    show (applyReqs s.pending ((x :: xs) ++ [y]) m.fresh).1 = _
    rw [applyReqs_concat]
  refine ⟨hr, ?_⟩
  rw [dispatch_state_some cls m e s hs,
    dispatchCur_next_some cls _ _ s e _ hr, commit_eq, react_eq]
  dsimp only
  rw [hh]
  exact ⟨_, _, rfl, rfl⟩

/-- Witness for C3: with requests X = 1 then Y = 2 in one handle call, the
engine installs the Y instance (id 2, fields 2) and the final entry call is
on Y, never on X. -/
theorem dispatch_last_request_wins_witness :
    dm0.state_ = some (Inst.mk 0 0 none) ∧
    doubleReqClass.handle 0 dm0.context_ () = (0, (), (1 :: []) ++ [2]) ∧
    ((react doubleReqClass (Inst.mk 0 0 none) dm0.context_ () dm0.fresh).next =
      some (Inst.mk 2 2 none) ∧
     ∃ d sl,
      (dispatch doubleReqClass dm0 ()).machine.state_ =
        some (Inst.mk 2 d sl) ∧
      (dispatch doubleReqClass dm0 ()).trace.getLast? =
        some (Hook.entryCall 2 2 ())) :=
  ⟨rfl, rfl,
   dispatch_last_request_wins doubleReqClass dm0 () (Inst.mk 0 0 none) rfl
     0 () 1 2 [] rfl⟩

/-- Counterexample to C4: construct the entryReqClass machine (its initial
state's entry requests a transition to the true-state) and dispatch one
event whose handler requests nothing.  The request made during entry is not
dropped: that dispatch exchanges it out of the slot, invokes exit and entry,
and changes the current state to the true-state (id 1) — contradicting the
claim that a request made during entry causes no exit/entry and no state
change in any subsequent dispatch. -/
theorem entry_request_not_dropped_cex :
    (dispatch entryReqClass em0 ()).machine.state_ =
      some (Inst.mk 1 true none) ∧
    (dispatch entryReqClass em0 ()).trace =
      [Hook.handleCall 0 false () (), Hook.exitCall 0 false (),
       Hook.entryCall 1 true ()] :=
  ⟨rfl, rfl⟩

/-- C4 as amended: the core indeed does not inspect the pending-transition
slot immediately after entry, so a transition requested during entry does
not fire within the construction or dispatch that ran entry; but it is not
dropped — the request p stays in the slot, and the next dispatch whose
handle makes no request of its own exchanges p out and commits the
transition to p, with exit and entry invoked as for any transition. -/
theorem entry_request_deferred (cls : StateClass σ C E)
    (m : StateMachine σ C) (e : E) (s p : Inst σ) (hs : m.state_ = some s)
    (hp : s.pending = some p) (d1 : σ) (c1 : C)
    (hh : cls.handle s.data m.context_ e = (d1, c1, [])) :
    (react cls s m.context_ e m.fresh).next = some p ∧
    ∃ c3 dn sl n3,
      dispatch cls m e =
        ⟨⟨c3, some (Inst.mk p.id dn sl), n3⟩,
         [Hook.handleCall s.id s.data m.context_ e,
          Hook.exitCall s.id d1 c1,
          Hook.entryCall p.id p.data (cls.exit d1 c1).2.1]⟩ := by
  have hr : (react cls s m.context_ e m.fresh).next = some p := by
    rw [react_eq]
    show (applyReqs s.pending (cls.handle s.data m.context_ e).2.2 m.fresh).1 =
      some p
    rw [hh, hp]
    rfl
  refine ⟨hr, ?_⟩
  rw [dispatch_state_some cls m e s hs,
    dispatchCur_next_some cls _ _ s e _ hr, commit_eq, react_eq]
  dsimp only
  rw [hh]
  exact ⟨_, _, _, _, rfl⟩

/-- Witness for the amended C4 at the entryReqClass machine: the request
made during the initial entry (the true-state, id 1) is taken by the first
dispatch, which exits the false-state and enters the true-state. -/
theorem entry_request_deferred_witness :
    em0.state_ = some (Inst.mk 0 false (some (Inst.mk 1 true none))) ∧
    (Inst.mk 0 false (some (Inst.mk 1 true none))).pending =
      some (Inst.mk 1 true none) ∧
    entryReqClass.handle false em0.context_ () = (false, (), []) ∧
    ((react entryReqClass (Inst.mk 0 false (some (Inst.mk 1 true none)))
        em0.context_ () em0.fresh).next = some (Inst.mk 1 true none) ∧
     ∃ c3 dn sl n3,
      dispatch entryReqClass em0 () =
        ⟨⟨c3, some (Inst.mk 1 dn sl), n3⟩,
         [Hook.handleCall 0 false () (), Hook.exitCall 0 false (),
          Hook.entryCall 1 true ()]⟩) :=
  ⟨rfl, rfl, rfl,
   entry_request_deferred entryReqClass em0 ()
     (Inst.mk 0 false (some (Inst.mk 1 true none))) (Inst.mk 1 true none)
     rfl rfl false () rfl⟩

/-- C6: constructing an engine with a context and an initial state invokes
entry(context) on the initial state exactly once before returning — the
construction's whole hook trace is that one entry call, so no handle or exit
call on that state precedes it — and the machine's current state afterwards
is that initial instance (id 0). -/
theorem construct_entry_once (cls : StateClass σ C E) (c : C) (d0 : σ) :
    (StateMachine.construct cls c d0).trace = [Hook.entryCall 0 d0 c] ∧
    ∃ d sl, (StateMachine.construct cls c d0).machine.state_ =
      some (Inst.mk 0 d sl) :=
  ⟨rfl, _, _, rfl⟩

/-- C9: the turnstile scenario.  From Locked, CoinInserted commits a
transition to Unlocked with Locked's exit recorded before Unlocked's entry;
from Unlocked, ArmPushed commits a transition back to Locked; ArmPushed
while Locked causes no transition, only the beep side effect, and Locked
stays current; CoinInserted while Unlocked causes no transition and no
lifecycle hook call (the trace is the no-op handle call alone and the
context is untouched). -/
theorem turnstile_scenario :
    tm0.state_ = some (Inst.mk 0 TState.Locked none) ∧
    dispatch turnstileClass tm0 TEvent.CoinInserted =
      ⟨⟨[TOut.armLocked, TOut.armUnlocked],
        some (Inst.mk 1 TState.Unlocked none), 2⟩,
       [Hook.handleCall 0 TState.Locked [TOut.armLocked] TEvent.CoinInserted,
        Hook.exitCall 0 TState.Locked [TOut.armLocked],
        Hook.entryCall 1 TState.Unlocked [TOut.armLocked]]⟩ ∧
    dispatch turnstileClass tm1 TEvent.ArmPushed =
      ⟨⟨[TOut.armLocked, TOut.armUnlocked, TOut.armLocked],
        some (Inst.mk 2 TState.Locked none), 3⟩,
       [Hook.handleCall 1 TState.Unlocked [TOut.armLocked, TOut.armUnlocked]
          TEvent.ArmPushed,
        Hook.exitCall 1 TState.Unlocked [TOut.armLocked, TOut.armUnlocked],
        Hook.entryCall 2 TState.Locked [TOut.armLocked, TOut.armUnlocked]]⟩ ∧
    dispatch turnstileClass tm0 TEvent.ArmPushed =
      ⟨⟨[TOut.armLocked, TOut.beep], some (Inst.mk 0 TState.Locked none), 1⟩,
       [Hook.handleCall 0 TState.Locked [TOut.armLocked]
          TEvent.ArmPushed]⟩ ∧
    dispatch turnstileClass tm1 TEvent.CoinInserted =
      ⟨⟨[TOut.armLocked, TOut.armUnlocked],
        some (Inst.mk 1 TState.Unlocked none), 2⟩,
       [Hook.handleCall 1 TState.Unlocked [TOut.armLocked, TOut.armUnlocked]
          TEvent.CoinInserted]⟩ :=
  ⟨rfl, rfl, rfl, rfl, rfl⟩

/-- C8: under the static allocation policy, any two make_state_ptr calls for
the same concrete state type return the same address (they alias the one
per-type static instance), whatever the storage looked like before each
call; and when the second call follows the first, the assignment it performs
is observable through the handle the first call returned: dereferencing the
first pointer in the later storage yields the second call's value. -/
theorem static_alloc_aliasing [DecidableEq κ] (dflt : κ → σ)
    (store store' : κ → Option (SVal κ σ)) (k : κ) (d1 d2 : σ) :
    (StaticStateAllocator.make_state_ptr dflt store k d1).2.1 =
      (StaticStateAllocator.make_state_ptr dflt store' k d2).2.1 ∧
    (StaticStateAllocator.make_state_ptr dflt
        (StaticStateAllocator.make_state_ptr dflt store k d1).1 k d2).1
      ((StaticStateAllocator.make_state_ptr dflt store k d1).2.1) =
      some ⟨d2, none⟩ := by
  constructor
  · rfl
  · show StaticStateAllocator.updateStore _ k ⟨d2, none⟩ k = some ⟨d2, none⟩
    simp [StaticStateAllocator.updateStore]

/-- C10: every static-policy make_state_ptr call first obtains the lazily
default-constructed per-type instance and then overwrites it in place via
move assignment from a freshly constructed value: on the first call for a
type (no instance in the store yet) the type is constructed twice — default
construction then the assignment — and on later calls only the assignment
happens; after every call the pointee is exactly the freshly constructed
value (fields d, pending-transition slot empty) and the returned pointer is
the per-type instance's address. -/
theorem static_make_state_ptr_spec [DecidableEq κ] (dflt : κ → σ)
    (store : κ → Option (SVal κ σ)) (k : κ) (d : σ) :
    (StaticStateAllocator.make_state_ptr dflt store k d).2.2 =
      (if (store k).isNone then [CtorEvent.defaultConstruct k] else []) ++
        [CtorEvent.moveAssign k] ∧
    (StaticStateAllocator.make_state_ptr dflt store k d).1 k =
      some ⟨d, none⟩ ∧
    (StaticStateAllocator.make_state_ptr dflt store k d).2.1 = k := by
  refine ⟨?_, ?_, rfl⟩
  · cases hsk : store k <;>
      simp [StaticStateAllocator.make_state_ptr,
        StaticStateAllocator.get_state_instance, hsk]
  · show StaticStateAllocator.updateStore _ k ⟨d, none⟩ k = some ⟨d, none⟩
    simp [StaticStateAllocator.updateStore]

/-- C5 evaluated on the code.  Under the unique policy the claim holds:
destroying the turnstile machine, which holds a current state, invokes that
state's exit with the context exactly once, and destroying a moved-from
machine (whose unique_ptr was nulled by the move) invokes no hook.  Under
the static policy, destroying a machine with a current state likewise exits
exactly once — but destroying a machine that was MOVED FROM still invokes
exit: the defaulted move constructor copies the raw pointer without nulling
it, so the destructor's non-null check (whose source comment says it is
there because the object may have been moved) does not detect the move, and
exit fires again on the static instance, contradicting the claim. -/
theorem teardown_exit_and_moved_from :
    (StateMachine.destruct turnstileClass tm0).trace =
      [Hook.exitCall 0 TState.Locked [TOut.armLocked]] ∧
    (StateMachine.destruct turnstileClass
      (StateMachine.moveConstruct tm0).2).trace = [] ∧
    (SMRaw.destruct rawExit rawStore0 rawA).2.2 = [RawHook.exitCall 0] ∧
    (SMRaw.destruct rawExit rawStore0 (SMRaw.moveConstruct rawA).1).2.2 =
      [RawHook.exitCall 0] ∧
    (SMRaw.destruct rawExit rawStore0 (SMRaw.moveConstruct rawA).2).2.2 =
      [RawHook.exitCall 0] :=
  ⟨rfl, rfl, rfl, rfl, rfl⟩

/-- Computation rule for Inst.id on a constructed instance. -/
theorem Inst.id_mk (i : Nat) (d : σ) (p : Option (Inst σ)) :
    (Inst.mk i d p).id = i := rfl

/-- Computation rule for Inst.data on a constructed instance. -/
theorem Inst.data_mk (i : Nat) (d : σ) (p : Option (Inst σ)) :
    (Inst.mk i d p).data = d := rfl

/-- Computation rule for Inst.pending on a constructed instance. -/
theorem Inst.pending_mk (i : Nat) (d : σ) (p : Option (Inst σ)) :
    (Inst.mk i d p).pending = p := rfl

/-- Computation rule for Hook.hid on an entry call. -/
theorem Hook.hid_entry (i : Nat) (d : σ) (c : C) :
    (Hook.entryCall i d c : Hook σ C E).hid = i := rfl

/-- Computation rule for Hook.hid on an exit call. -/
theorem Hook.hid_exit (i : Nat) (d : σ) (c : C) :
    (Hook.exitCall i d c : Hook σ C E).hid = i := rfl

/-- Computation rule for Hook.hid on a handle call. -/
theorem Hook.hid_handle (i : Nat) (d : σ) (c : C) (e : E) :
    (Hook.handleCall i d c e : Hook σ C E).hid = i := rfl

/-- Filtering distributes over trace concatenation. -/
theorem filt_append (i : Nat) (l1 l2 : List (Hook σ C E)) :
    filt i (l1 ++ l2) = filt i l1 ++ filt i l2 := by
  induction l1 with
  | nil => rfl
  | cons h t ih =>
    rw [List.cons_append, filt, filt, ih]
    split <;> rfl

/-- A trace none of whose hooks touch instance i filters to nothing on i. -/
theorem filt_eq_nil (i : Nat) (l : List (Hook σ C E))
    (h : ∀ x ∈ l, Hook.hid x ≠ i) : filt i l = [] := by
  induction l with
  | nil => rfl
  | cons a t ih =>
    rw [filt, if_neg (h a (List.mem_cons_self a t))]
    exact ih fun x hx => h x (List.mem_cons_of_mem a hx)

/-- Appending a handle call keeps an open lifecycle open. -/
theorem openTr_append_handle (l : List (Hook σ C E)) (h : Hook σ C E)
    (hl : openTr l = true) (hh : h.isHandle = true) :
    openTr (l ++ [h]) = true := by
  cases l with
  | nil => exact absurd hl (by simp [openTr])
  | cons a t =>
    rw [openTr] at hl
    rw [List.cons_append, openTr]
    simp only [Bool.and_eq_true] at hl ⊢
    refine ⟨hl.1, ?_⟩
    rw [handlesOnly] at hl ⊢
    rw [List.all_append]
    simp [hl.2, List.all_cons, hh]

/-- Appending the exit call to an open lifecycle closes it. -/
theorem openTr_append_exit (l : List (Hook σ C E)) (h : Hook σ C E)
    (hl : openTr l = true) (hh : h.isExit = true) :
    closedTr (l ++ [h]) = true := by
  cases l with
  | nil => exact absurd hl (by simp [openTr])
  | cons a t =>
    rw [openTr] at hl
    simp only [Bool.and_eq_true] at hl
    rw [List.cons_append, closedTr]
    simp only [Bool.and_eq_true]
    refine ⟨hl.1, ?_⟩
    have : ∀ t' : List (Hook σ C E), handlesOnly t' = true →
        closedTail (t' ++ [h]) = true := by
      intro t'
      induction t' with
      | nil => intro _; simpa [closedTail] using hh
      | cons b u ih =>
        intro hb
        rw [handlesOnly, List.all_cons, Bool.and_eq_true] at hb
        rw [List.cons_append]
        cases u with
        | nil => simpa [closedTail, hb.1] using ih hb.2
        | cons c v =>
          rw [List.cons_append, closedTail]
          · rw [List.cons_append] at ih
            simp only [Bool.and_eq_true]
            exact ⟨hb.1, by simpa using ih hb.2⟩
          · simp
    exact this t hl.2

/-- Filtering keeps a handle call on its own instance. -/
theorem filt_handle_self (i : Nat) (d : σ) (c : C) (e : E) :
    filt i [Hook.handleCall i d c e] = [Hook.handleCall i d c e] := by
  simp [filt, Hook.hid_handle]

/-- Filtering drops a handle call on another instance. -/
theorem filt_handle_ne (i j : Nat) (d : σ) (c : C) (e : E) (h : i ≠ j) :
    filt j [Hook.handleCall i d c e] = [] := by
  simp [filt, Hook.hid_handle, h]

/-- Filtering keeps an exit call on its own instance. -/
theorem filt_exit_self (i : Nat) (d : σ) (c : C) :
    filt i ([Hook.exitCall i d c] : List (Hook σ C E)) =
      [Hook.exitCall i d c] := by
  simp [filt, Hook.hid_exit]

/-- Filtering drops an exit call on another instance. -/
theorem filt_exit_ne (i j : Nat) (d : σ) (c : C) (h : i ≠ j) :
    filt j ([Hook.exitCall i d c] : List (Hook σ C E)) = [] := by
  simp [filt, Hook.hid_exit, h]

/-- Filtering keeps an entry call on its own instance. -/
theorem filt_entry_self (i : Nat) (d : σ) (c : C) :
    filt i ([Hook.entryCall i d c] : List (Hook σ C E)) =
      [Hook.entryCall i d c] := by
  simp [filt, Hook.hid_entry]

/-- Filtering drops an entry call on another instance. -/
theorem filt_entry_ne (i j : Nat) (d : σ) (c : C) (h : i ≠ j) :
    filt j ([Hook.entryCall i d c] : List (Hook σ C E)) = [] := by
  simp [filt, Hook.hid_entry, h]

/-- An open lifecycle of one entry call alone. -/
theorem openTr_entry (i : Nat) (d : σ) (c : C) :
    openTr ([Hook.entryCall i d c] : List (Hook σ C E)) = true := by
  simp [openTr, Hook.isEntry, handlesOnly]

/-- Construction establishes the invariant: the initial instance (id 0) is
current with exactly its entry call recorded, and any request its entry made
is a fresh, untouched instance in its slot. -/
theorem construct_inv (cls : StateClass σ C E) (c : C) (d0 : σ) :
    EngineInv (StateMachine.construct cls c d0).machine
      (StateMachine.construct cls c d0).trace := by
  rw [construct_eq]
  have h1 : 1 ≤ (applyReqs (none : Option (Inst σ)) (cls.entry d0 c).2.2 1).2 := by
    rw [applyReqs_snd]; omega
  refine ⟨?_, ?_, ?_⟩
  · intro h hh
    dsimp only at hh ⊢
    rw [List.mem_singleton] at hh
    subst hh
    simp only [Hook.hid_entry]
    omega
  · intro s hsome
    dsimp only at hsome ⊢
    injection hsome with hs
    subst hs
    simp only [Inst.id_mk, Inst.pending_mk]
    refine ⟨by omega, ?_, ?_⟩
    · simp [filt, Hook.hid_entry, openTr, handlesOnly, Hook.isEntry]
    · intro p hp
      rcases applyReqs_fst_some _ _ _ _ hp with ⟨-, hslot⟩ | ⟨hpend, hle, hlt⟩
      · cases hslot
      · refine ⟨hlt, by omega, hpend, ?_⟩
        apply filt_eq_nil
        intro x hx
        rw [List.mem_singleton] at hx
        subst hx
        simp only [Hook.hid_entry]
        omega
  · intro j hj
    dsimp only at hj ⊢
    have hj0 : j ≠ 0 := by
      have := hj (Inst.mk 0 (cls.entry d0 c).1
        (applyReqs none (cls.entry d0 c).2.2 1).1) rfl
      simpa [Inst.id_mk] using this
    rw [filt_eq_nil j _ (by
      intro x hx
      rw [List.mem_singleton] at hx
      subst hx
      simp only [Hook.hid_entry]
      omega)]
    rfl

/-- The destructor of a moved-from (null state) machine does nothing. -/
theorem destruct_state_none (cls : StateClass σ C E) (m : StateMachine σ C)
    (hs : m.state_ = none) : StateMachine.destruct cls m = ⟨m, []⟩ := by
  unfold StateMachine.destruct
  rw [hs]

/-- The destructor of a machine with a current state invokes exit on it. -/
theorem destruct_state_some (cls : StateClass σ C E) (m : StateMachine σ C)
    (s : Inst σ) (hs : m.state_ = some s) :
    StateMachine.destruct cls m =
      ⟨⟨(cls.exit s.data m.context_).2.1, none,
        (applyReqs none (cls.exit s.data m.context_).2.2 m.fresh).2⟩,
       [Hook.exitCall s.id s.data m.context_]⟩ := by
  unfold StateMachine.destruct
  rw [hs]

/-- From the invariant, destruction closes the current instance's lifecycle
and leaves every instance's subtrace a legal lifecycle. -/
theorem destruct_all_ok (cls : StateClass σ C E) (m : StateMachine σ C)
    (tr : List (Hook σ C E)) (hinv : EngineInv m tr) (i : Nat) :
    instOK (filt i (tr ++ (StateMachine.destruct cls m).trace)) = true := by
  obtain ⟨hb, hc, hcl⟩ := hinv
  rcases hms : m.state_ with _ | s
  · rw [destruct_state_none cls m hms]
    dsimp only
    rw [List.append_nil]
    have := hcl i (by intro s' h'; rw [hms] at h'; cases h')
    simp [instOK, this]
  · obtain ⟨-, hsopen, -⟩ := hc s hms
    rw [destruct_state_some cls m s hms]
    dsimp only
    by_cases hi : i = s.id
    · subst hi
      rw [filt_append]
      have hsingle :
          filt s.id ([Hook.exitCall s.id s.data m.context_] : List (Hook σ C E)) =
            [Hook.exitCall s.id s.data m.context_] := by
        simp [filt, Hook.hid_exit]
      rw [hsingle]
      have := openTr_append_exit _ (Hook.exitCall s.id s.data m.context_)
        hsopen rfl
      simp [instOK, this]
    · have hcl' := hcl i (by
        intro s' h'
        rw [hms] at h'
        injection h' with h''
        subst h''
        exact hi)
      have hnil :
          filt i ([Hook.exitCall s.id s.data m.context_] : List (Hook σ C E)) = [] := by
        apply filt_eq_nil
        intro x hx
        rw [List.mem_singleton] at hx
        subst hx
        simp only [Hook.hid_exit]
        exact fun h => hi h.symm
      rw [filt_append, hnil, List.append_nil]
      simp [instOK, hcl']

/-- Committing a transition preserves the invariant: given that the react
step produced the single handle-call trace, that the target instance ns is
already allocated, fresh (no hooks yet, empty own slot) and distinct from
the old current instance, the machine after commit satisfies the invariant
with the old instance's lifecycle closed and ns's opened. -/
theorem commit_preserves (cls : StateClass σ C E) (tr : List (Hook σ C E))
    (sid : Nat) (d0 : σ) (c0 : C) (e0 : E) (r : ReactResult σ C E)
    (ns : Inst σ)
    (hrtrace : r.trace = [Hook.handleCall sid d0 c0 e0])
    (hb : ∀ h ∈ tr, Hook.hid h < r.fresh)
    (hsid : sid < r.fresh)
    (hsopen : openTr (filt sid tr) = true)
    (hns1 : ns.id < r.fresh) (hns2 : ns.id ≠ sid) (hns3 : ns.pending = none)
    (hns4 : filt ns.id tr = [])
    (hcl : ∀ j, j ≠ sid → closedTr (filt j tr) = true) :
    EngineInv (commit cls sid r ns).machine
      (tr ++ (commit cls sid r ns).trace) := by
  rw [commit_eq, hrtrace, hns3]
  dsimp only
  have e1 : (applyReqs (none : Option (Inst σ))
      (cls.exit r.self.data r.ctx).2.2 r.fresh).2 =
      r.fresh + (cls.exit r.self.data r.ctx).2.2.length :=
    applyReqs_snd _ _ _
  have e2 : (applyReqs (none : Option (Inst σ))
      (cls.entry ns.data (cls.exit r.self.data r.ctx).2.1).2.2
      (applyReqs (none : Option (Inst σ))
        (cls.exit r.self.data r.ctx).2.2 r.fresh).2).2 =
      (applyReqs (none : Option (Inst σ))
        (cls.exit r.self.data r.ctx).2.2 r.fresh).2 +
      (cls.entry ns.data (cls.exit r.self.data r.ctx).2.1).2.2.length :=
    applyReqs_snd _ _ _
  refine ⟨?_, ?_, ?_⟩
  · intro h hh
    dsimp only at hh ⊢
    simp only [List.mem_append, List.mem_singleton, List.mem_cons,
      List.not_mem_nil, or_false] at hh
    rcases hh with hold | rfl | rfl | rfl
    · have := hb h hold
      omega
    · simp only [Hook.hid_handle]
      omega
    · simp only [Hook.hid_exit]
      omega
    · simp only [Hook.hid_entry]
      omega
  · intro s' hs'
    dsimp only at hs'
    injection hs' with h'
    subst h'
    simp only [Inst.id_mk, Inst.pending_mk]
    refine ⟨by omega, ?_, ?_⟩
    · rw [filt_append, hns4, List.nil_append, filt_append,
        filt_handle_ne sid ns.id _ _ _ (fun h => hns2 h.symm),
        List.nil_append,
        show ([Hook.exitCall sid r.self.data r.ctx,
               Hook.entryCall ns.id ns.data
                 (cls.exit r.self.data r.ctx).2.1] : List (Hook σ C E)) =
          [Hook.exitCall sid r.self.data r.ctx] ++
          [Hook.entryCall ns.id ns.data
            (cls.exit r.self.data r.ctx).2.1] from rfl,
        filt_append, filt_exit_ne sid ns.id _ _ (fun h => hns2 h.symm),
        List.nil_append, filt_entry_self]
      exact openTr_entry _ _ _
    · intro p hp
      rcases applyReqs_fst_some _ _ _ _ hp with ⟨-, hslot⟩ | ⟨hpend, hle, hlt⟩
      · cases hslot
      · refine ⟨hlt, by omega, hpend, ?_⟩
        apply filt_eq_nil
        intro x hx
        simp only [List.mem_append, List.mem_singleton, List.mem_cons,
          List.not_mem_nil, or_false] at hx
        rcases hx with hold | rfl | rfl | rfl
        · have := hb x hold
          omega
        · simp only [Hook.hid_handle]
          omega
        · simp only [Hook.hid_exit]
          omega
        · simp only [Hook.hid_entry]
          omega
  · intro j hj
    dsimp only at hj ⊢
    have hjns : j ≠ ns.id := by
      have := hj (Inst.mk ns.id
        (cls.entry ns.data (cls.exit r.self.data r.ctx).2.1).1
        (applyReqs none
          (cls.entry ns.data (cls.exit r.self.data r.ctx).2.1).2.2
          (applyReqs none (cls.exit r.self.data r.ctx).2.2 r.fresh).2).1) rfl
      simpa [Inst.id_mk] using this
    rw [filt_append, filt_append,
      show ([Hook.exitCall sid r.self.data r.ctx,
             Hook.entryCall ns.id ns.data
               (cls.exit r.self.data r.ctx).2.1] : List (Hook σ C E)) =
        [Hook.exitCall sid r.self.data r.ctx] ++
        [Hook.entryCall ns.id ns.data
          (cls.exit r.self.data r.ctx).2.1] from rfl,
      filt_append, filt_entry_ne ns.id j _ _ (fun h => hjns h.symm),
      List.append_nil]
    by_cases hjs : j = sid
    · subst hjs
      rw [filt_handle_self, filt_exit_self, ← List.append_assoc]
      exact openTr_append_exit _ _
        (openTr_append_handle _ _ hsopen rfl) rfl
    · rw [filt_handle_ne sid j _ _ _ (fun h => hjs h.symm),
        filt_exit_ne sid j _ _ (fun h => hjs h.symm),
        List.append_nil, List.append_nil]
      exact hcl j hjs

/-- Each dispatch preserves the invariant: a no-transition dispatch appends
one handle call to the current instance's open lifecycle; a transition
closes the old instance's lifecycle and opens the target's. -/
theorem dispatch_preserves_inv (cls : StateClass σ C E)
    (m : StateMachine σ C) (e : E) (tr : List (Hook σ C E))
    (hinv : EngineInv m tr) :
    EngineInv (dispatch cls m e).machine (tr ++ (dispatch cls m e).trace) := by
  obtain ⟨hb, hc, hcl⟩ := hinv
  rcases hms : m.state_ with _ | s
  · rw [dispatch_state_none cls m e hms]
    dsimp only
    rw [List.append_nil]
    exact ⟨hb, hc, hcl⟩
  · obtain ⟨hsidlt, hsopen, hspend⟩ := hc s hms
    have hfr : m.fresh ≤ (react cls s m.context_ e m.fresh).fresh := by
      rw [react_eq]
      dsimp only
      rw [applyReqs_snd]
      omega
    rcases hrn : (react cls s m.context_ e m.fresh).next with _ | ns
    · have hrn' : (applyReqs s.pending
          (cls.handle s.data m.context_ e).2.2 m.fresh).1 = none := by
        rw [react_eq] at hrn
        exact hrn
      rw [dispatch_state_some cls m e s hms,
        dispatchCur_next_none cls _ _ s e hrn, react_eq]
      dsimp only
      refine ⟨?_, ?_, ?_⟩
      · intro h hh
        dsimp only at hh ⊢
        rcases List.mem_append.mp hh with hold | hnew
        · have := hb h hold
          rw [applyReqs_snd]
          omega
        · rw [List.mem_singleton] at hnew
          subst hnew
          simp only [Hook.hid_handle]
          rw [applyReqs_snd]
          omega
      · intro s' hs'
        dsimp only at hs' ⊢
        injection hs' with h'
        subst h'
        simp only [Inst.id_mk, Inst.pending_mk]
        refine ⟨by rw [applyReqs_snd]; omega, ?_, ?_⟩
        · rw [filt_append, filt_handle_self]
          exact openTr_append_handle _ _ hsopen rfl
        · intro p hp
          cases hp
      · intro j hj
        dsimp only at hj
        have hjs : j ≠ s.id := by
          have := hj (Inst.mk s.id (cls.handle s.data m.context_ e).1 none) rfl
          simpa [Inst.id_mk] using this
        rw [filt_append, filt_handle_ne s.id j _ _ _ (fun h => hjs h.symm),
          List.append_nil]
        exact hcl j (by
          intro s'' h''
          rw [hms] at h''
          injection h'' with h3
          subst h3
          exact hjs)
    · have hrn' : (applyReqs s.pending
          (cls.handle s.data m.context_ e).2.2 m.fresh).1 = some ns := by
        rw [react_eq] at hrn
        exact hrn
      have hnsfacts : ns.id < (react cls s m.context_ e m.fresh).fresh ∧
          ns.id ≠ s.id ∧ ns.pending = none ∧ filt ns.id tr = [] := by
        rcases applyReqs_fst_some _ _ _ _ hrn' with
          ⟨hreq, hslot⟩ | ⟨hpend, hle, hlt⟩
        · obtain ⟨hplt, hpne, hppend, hpnil⟩ := hspend ns hslot
          exact ⟨by omega, hpne, hppend, hpnil⟩
        · refine ⟨?_, by omega, hpend, ?_⟩
          · rw [react_eq]
            dsimp only
            exact hlt
          · apply filt_eq_nil
            intro x hx
            have := hb x hx
            omega
      rw [dispatch_state_some cls m e s hms,
        dispatchCur_next_some cls _ _ s e ns hrn]
      exact commit_preserves cls tr s.id s.data m.context_ e
        (react cls s m.context_ e m.fresh) ns
        rfl
        (fun h hh => Nat.lt_of_lt_of_le (hb h hh) hfr)
        (Nat.lt_of_lt_of_le hsidlt hfr)
        hsopen
        hnsfacts.1 hnsfacts.2.1 hnsfacts.2.2.1 hnsfacts.2.2.2
        (fun j hj => hcl j (by
          intro s'' h''
          rw [hms] at h''
          injection h'' with h3
          subst h3
          exact hj))

/-- Running a list of events preserves the invariant. -/
theorem runEvents_inv (cls : StateClass σ C E) :
    ∀ (es : List E) (m : StateMachine σ C) (tr : List (Hook σ C E)),
      EngineInv m tr →
      EngineInv (runEvents cls m es).1 (tr ++ (runEvents cls m es).2)
  | [], m, tr, h => by
    rw [runEvents]
    rw [List.append_nil]
    exact h
  | e :: es, m, tr, h => by
    rw [runEvents]
    dsimp only
    have h2 := runEvents_inv cls es (dispatch cls m e).machine
      (tr ++ (dispatch cls m e).trace) (dispatch_preserves_inv cls m e tr h)
    rw [List.append_assoc] at h2
    exact h2

/-- C7: in every engine execution — construction with any context and
initial state, any sequence of dispatched events, destruction — every
instance's hook subtrace obeys the lifecycle discipline: entry invoked
exactly once, before any handle call on that instance and before its exit,
and neither entry nor exit invoked twice on it. -/
theorem run_lifecycle_invariant (cls : StateClass σ C E) (c0 : C) (d0 : σ)
    (es : List E) (i : Nat) : instOK (filt i (run cls c0 d0 es)) = true := by
  have h1 := runEvents_inv cls es (StateMachine.construct cls c0 d0).machine
    (StateMachine.construct cls c0 d0).trace (construct_inv cls c0 d0)
  have h2 := destruct_all_ok cls _ _ h1 i
  unfold run
  exact h2

end Unstately

